import Mathlib

/-!
Shallow embedding of `torch_geometric_temporal/nn/conv/gconv_gru.py`, the
Chebyshev graph-convolutional GRU cell `GConvGRU`.

Matrices are modelled as real matrices with an explicit shape and a total
entry function (`RMat`); the six `ChebConv` operators are external
collaborators and are modelled as opaque function-valued fields of the cell,
exactly as the module treats them (it only ever calls them as
`conv(features, edge_index, edge_weight)`).  `torch.sigmoid` and `torch.tanh`
are the real logistic sigmoid and `Real.tanh`.  Every method of the Python
class is translated statement by statement.
-/

noncomputable section

open Real Filter

/-- A real matrix with an explicit shape and a total entry function,
modelling a 2-D float tensor. -/
@[ext]
structure RMat where
  rows : ℕ
  cols : ℕ
  entry : ℕ → ℕ → ℝ

/-- Graph edge indices: a list of (source, target) node-index pairs,
modelling the `edge_index` tensor.  Opaque to the cell: it is only ever
forwarded to the convolution operators. -/
abbrev EdgeIndex : Type := List (ℕ × ℕ)

/-- Optional edge weights, modelling the `edge_weight` argument. -/
abbrev EdgeWeight : Type := Option (List ℝ)

/-- Elementwise sum of two matrices (`+` on tensors of equal shape). -/
def matAdd (A B : RMat) : RMat :=
  ⟨A.rows, A.cols, fun i j => A.entry i j + B.entry i j⟩

/-- Elementwise (Hadamard) product of two matrices (`*` on tensors of equal
shape). -/
def matHadamard (A B : RMat) : RMat :=
  ⟨A.rows, A.cols, fun i j => A.entry i j * B.entry i j⟩

/-- Elementwise application of a scalar function (`torch.sigmoid`,
`torch.tanh`). -/
def matMap (f : ℝ → ℝ) (A : RMat) : RMat :=
  ⟨A.rows, A.cols, fun i j => f (A.entry i j)⟩

/-- The all-zero matrix of a given shape, modelling `torch.zeros(n, m)`. -/
def zeros (n m : ℕ) : RMat :=
  ⟨n, m, fun _ _ => 0⟩

/-- A constant matrix of a given shape. -/
def constMat (n m : ℕ) (c : ℝ) : RMat :=
  ⟨n, m, fun _ _ => c⟩

/-- The logistic sigmoid, modelling `torch.sigmoid`. -/
def sigmoid (x : ℝ) : ℝ :=
  1 / (1 + Real.exp (-x))

/-- Signature of a graph-convolution operator: `(features, edge_index,
edge_weight) -> transformed features`, the call contract of `ChebConv`. -/
def ConvOp : Type := RMat → EdgeIndex → EdgeWeight → RMat

/-- The `GConvGRU` cell: the constructor arguments together with the six
`ChebConv` operators created by `_create_parameters_and_layers`.  The
operators are opaque learnable functions (external collaborators). -/
structure GConvGRU where
  in_channels : ℕ
  out_channels : ℕ
  K : ℕ
  number_of_nodes : ℕ
  conv_x_z : ConvOp
  conv_h_z : ConvOp
  conv_x_r : ConvOp
  conv_h_r : ConvOp
  conv_x_h : ConvOp
  conv_h_h : ConvOp

/-- Translation of `GConvGRU._set_hidden_state`: if `H` is `None` it is
replaced by `torch.zeros(number_of_nodes, out_channels)`; `X` is accepted
but not used. -/
def GConvGRU.set_hidden_state (self : GConvGRU) (X : RMat) (H : Option RMat) : RMat :=
  match H with
  | none => zeros self.number_of_nodes self.out_channels
  | some H => H

/-- Translation of `GConvGRU._calculate_update_gate`:
`Z = conv_x_z(X,...)`; `Z = Z + conv_h_z(H,...)`; `Z = torch.sigmoid(Z)`. -/
def GConvGRU.calculate_update_gate (self : GConvGRU) (X : RMat) (edge_index : EdgeIndex)
    (edge_weight : EdgeWeight) (H : RMat) : RMat :=
  let Z := self.conv_x_z X edge_index edge_weight
  let Z := matAdd Z (self.conv_h_z H edge_index edge_weight)
  let Z := matMap sigmoid Z
  Z

/-- Translation of `GConvGRU._calculate_reset_gate`:
`R = conv_x_r(X,...)`; `R = R + conv_h_r(H,...)`; `R = torch.sigmoid(R)`. -/
def GConvGRU.calculate_reset_gate (self : GConvGRU) (X : RMat) (edge_index : EdgeIndex)
    (edge_weight : EdgeWeight) (H : RMat) : RMat :=
  let R := self.conv_x_r X edge_index edge_weight
  let R := matAdd R (self.conv_h_r H edge_index edge_weight)
  let R := matMap sigmoid R
  R

/-- Translation of `GConvGRU._calculate_candidate_state`:
`H_t = conv_x_h(X,...)`; `H_t = H_t + conv_h_h(H*R,...)`;
`H_t = torch.tanh(H_t)`. -/
def GConvGRU.calculate_candidate_state (self : GConvGRU) (X : RMat) (edge_index : EdgeIndex)
    (edge_weight : EdgeWeight) (H R : RMat) : RMat :=
  let H_t := self.conv_x_h X edge_index edge_weight
  let H_t := matAdd H_t (self.conv_h_h (matHadamard H R) edge_index edge_weight)
  let H_t := matMap Real.tanh H_t
  H_t

/-- Translation of `GConvGRU._calculate_hidden_state`: `H = O * torch.tanh(C)`. -/
def GConvGRU.calculate_hidden_state (self : GConvGRU) (O C : RMat) : RMat :=
  matHadamard O (matMap Real.tanh C)

/-- Translation of `GConvGRU.forward`, statement by statement. -/
def GConvGRU.forward (self : GConvGRU) (X : RMat) (edge_index : EdgeIndex)
    (edge_weight : EdgeWeight) (H : Option RMat) : RMat :=
  let H := self.set_hidden_state X H
  let Z := self.calculate_update_gate X edge_index edge_weight H
  let R := self.calculate_reset_gate X edge_index edge_weight H
  let H_t := self.calculate_candidate_state X edge_index edge_weight H R
  let H := self.calculate_hidden_state H H_t
  H

/-- Variant of `forward` in which the reset gate is computed before the
update gate (the two middle statements swapped); used to state the
order-independence of the two gates. -/
def GConvGRU.forward_reset_first (self : GConvGRU) (X : RMat) (edge_index : EdgeIndex)
    (edge_weight : EdgeWeight) (H : Option RMat) : RMat :=
  let H := self.set_hidden_state X H
  let R := self.calculate_reset_gate X edge_index edge_weight H
  let Z := self.calculate_update_gate X edge_index edge_weight H
  let H_t := self.calculate_candidate_state X edge_index edge_weight H R
  let H := self.calculate_hidden_state H H_t
  H

/-- Iterated application of the cell along a sequence of inputs: the hidden
state returned by one call is passed as the (explicit) hidden state of the
next, the caller-side recurrence the module is designed for. -/
def GConvGRU.iterate (self : GConvGRU) (Xs : ℕ → RMat) (eis : ℕ → EdgeIndex)
    (ews : ℕ → EdgeWeight) (H0 : RMat) : ℕ → RMat
  | 0 => H0
  | k + 1 => self.forward (Xs k) (eis k) (ews k) (some (self.iterate Xs eis ews H0 k))

/-- The conventional GRU hidden-state combination, written from the spec's
words: `Z ⊙ H + (1 - Z) ⊙ H_t`.  This is NOT what the code computes; it is
stated only to be compared with `forward`. -/
def conventionalGRUCombination (self : GConvGRU) (X : RMat) (edge_index : EdgeIndex)
    (edge_weight : EdgeWeight) (H : Option RMat) : RMat :=
  let H := self.set_hidden_state X H
  let Z := self.calculate_update_gate X edge_index edge_weight H
  let R := self.calculate_reset_gate X edge_index edge_weight H
  let H_t := self.calculate_candidate_state X edge_index edge_weight H R
  matAdd (matHadamard Z H) (matHadamard (matMap (fun z => 1 - z) Z) H_t)

/-! ### Concrete instances used to evaluate the development -/

/-- A concrete convolution operator that returns the 1×1 zero matrix on
every input — a `ChebConv` on a one-node graph whose weights and bias are
all zero. -/
def convZero : ConvOp := fun _ _ _ => zeros 1 1

/-- A concrete cell on one node with one input and one output channel,
whose six operators are all `convZero`. -/
def cell0 : GConvGRU :=
  ⟨1, 1, 1, 1, convZero, convZero, convZero, convZero, convZero, convZero⟩

/-- The 1×1 all-ones matrix. -/
def onesMat : RMat := constMat 1 1 1

/-- Validity of an optional hidden state for a cell: whenever a matrix is
supplied, its shape is `(number_of_nodes, out_channels)`. -/
def hiddenShapeOk (cell : GConvGRU) (H : Option RMat) : Prop :=
  ∀ M, H = some M → M.rows = cell.number_of_nodes ∧ M.cols = cell.out_channels

/-! ### Analytic facts about the activation functions -/

/-- The logistic sigmoid is strictly positive. -/
theorem sigmoid_pos (x : ℝ) : 0 < sigmoid x := by
  unfold sigmoid
  positivity

/-- The logistic sigmoid is strictly below one. -/
theorem sigmoid_lt_one (x : ℝ) : sigmoid x < 1 := by
  unfold sigmoid
  rw [div_lt_one (by positivity)]
  linarith [Real.exp_pos (-x)]

/-- Value of the logistic sigmoid at zero. -/
theorem sigmoid_zero_eq : sigmoid 0 = 1 / 2 := by
  unfold sigmoid
  rw [neg_zero, Real.exp_zero]
  norm_num

/-- The hyperbolic tangent is strictly below one. -/
theorem tanh_lt_one (x : ℝ) : Real.tanh x < 1 := by
  rw [Real.tanh_eq_sinh_div_cosh, div_lt_one (Real.cosh_pos x)]
  exact Real.sinh_lt_cosh x

/-- The hyperbolic tangent is strictly above minus one. -/
theorem neg_one_lt_tanh (x : ℝ) : -1 < Real.tanh x := by
  have h := tanh_lt_one (-x)
  rw [Real.tanh_neg] at h
  linarith

/-- Closed form of the hyperbolic tangent used to prove monotonicity. -/
theorem tanh_eq_exp_form (x : ℝ) : Real.tanh x = 1 - 2 / (Real.exp (2 * x) + 1) := by
  rw [Real.tanh_eq_sinh_div_cosh, Real.sinh_eq, Real.cosh_eq]
  have h1 : (0:ℝ) < Real.exp x := Real.exp_pos x
  have h2 : Real.exp (2 * x) = Real.exp x * Real.exp x := by
    rw [two_mul, Real.exp_add]
  have h3 : Real.exp (-x) = (Real.exp x)⁻¹ := Real.exp_neg x
  rw [h2, h3]
  have h4 : (0:ℝ) < Real.exp x * Real.exp x + 1 := by positivity
  field_simp
  ring

/-- The hyperbolic tangent is monotone. -/
theorem tanh_monotone : Monotone Real.tanh := by
  intro a b hab
  rw [tanh_eq_exp_form, tanh_eq_exp_form]
  have h : 2 / (Real.exp (2 * b) + 1) ≤ 2 / (Real.exp (2 * a) + 1) := by
    gcongr
  linarith

/-- The hyperbolic tangent is nonnegative on nonnegative inputs. -/
theorem tanh_nonneg_of_nonneg {x : ℝ} (hx : 0 ≤ x) : 0 ≤ Real.tanh x := by
  have h := tanh_monotone hx
  rwa [Real.tanh_zero] at h

/-- On inputs of absolute value at most one, the hyperbolic tangent has
absolute value at most `tanh 1`. -/
theorem abs_tanh_le_tanh_one {y : ℝ} (hy : |y| ≤ 1) : |Real.tanh y| ≤ Real.tanh 1 := by
  rcases le_or_lt 0 y with h | h
  · rw [abs_of_nonneg (tanh_nonneg_of_nonneg h)]
    exact tanh_monotone (by rwa [abs_of_nonneg h] at hy)
  · have h1 : Real.tanh y ≤ 0 := by
      have h2 := tanh_monotone h.le
      rwa [Real.tanh_zero] at h2
    rw [abs_of_nonpos h1, ← Real.tanh_neg]
    exact tanh_monotone (by rw [abs_of_neg h] at hy; linarith)

/-- The hyperbolic tangent maps every real into `[-1, 1]` in absolute
value. -/
theorem abs_tanh_le_one (x : ℝ) : |Real.tanh x| ≤ 1 :=
  abs_le.2 ⟨by linarith [neg_one_lt_tanh x], (tanh_lt_one x).le⟩

/-! ### Structural lemmas about the embedded operations -/

/-- Hadamard product with the zero matrix on the left gives the zero
matrix. -/
theorem matHadamard_zeros_left (n m : ℕ) (B : RMat) :
    matHadamard (zeros n m) B = zeros n m := by
  simp [matHadamard, zeros]

/-- Unfolding of `forward`: the returned matrix is the Hadamard product of
the resolved previous hidden state with the elementwise `tanh` of the
candidate state; the update gate does not occur in this expression. -/
theorem forward_unfold (cell : GConvGRU) (X : RMat) (ei : EdgeIndex) (ew : EdgeWeight)
    (H : Option RMat) :
    cell.forward X ei ew H =
      matHadamard (cell.set_hidden_state X H)
        (matMap Real.tanh
          (cell.calculate_candidate_state X ei ew (cell.set_hidden_state X H)
            (cell.calculate_reset_gate X ei ew (cell.set_hidden_state X H)))) :=
  rfl

/-- Every entry of the candidate state has absolute value at most one,
being a value of `tanh`. -/
theorem candidate_entry_abs_le_one (cell : GConvGRU) (X : RMat) (ei : EdgeIndex)
    (ew : EdgeWeight) (H R : RMat) (i j : ℕ) :
    |(cell.calculate_candidate_state X ei ew H R).entry i j| ≤ 1 := by
  show |Real.tanh ((matAdd (cell.conv_x_h X ei ew)
    (cell.conv_h_h (matHadamard H R) ei ew)).entry i j)| ≤ 1
  exact abs_tanh_le_one _

/-- Entrywise bound for `_calculate_hidden_state`: when every entry of `C`
has absolute value at most one, the result contracts `O` entrywise by the
factor `tanh 1`. -/
theorem calculate_hidden_state_entry_bound (cell : GConvGRU) (O C : RMat) (i j : ℕ)
    (hC : |C.entry i j| ≤ 1) :
    |(cell.calculate_hidden_state O C).entry i j| ≤ Real.tanh 1 * |O.entry i j| := by
  show |O.entry i j * Real.tanh (C.entry i j)| ≤ Real.tanh 1 * |O.entry i j|
  rw [abs_mul, mul_comm]
  exact mul_le_mul_of_nonneg_right (abs_tanh_le_tanh_one hC) (abs_nonneg _)

/-- One forward step contracts each entry of the resolved hidden state by
the factor `tanh 1`. -/
theorem forward_entry_contraction (cell : GConvGRU) (X : RMat) (ei : EdgeIndex)
    (ew : EdgeWeight) (H : Option RMat) (i j : ℕ) :
    |(cell.forward X ei ew H).entry i j| ≤
      Real.tanh 1 * |(cell.set_hidden_state X H).entry i j| :=
  calculate_hidden_state_entry_bound cell (cell.set_hidden_state X H)
    (cell.calculate_candidate_state X ei ew (cell.set_hidden_state X H)
      (cell.calculate_reset_gate X ei ew (cell.set_hidden_state X H))) i j
    (candidate_entry_abs_le_one cell X ei ew (cell.set_hidden_state X H)
      (cell.calculate_reset_gate X ei ew (cell.set_hidden_state X H)) i j)

/-- Iterating the cell contracts each entry of the initial hidden state
geometrically with ratio `tanh 1`. -/
theorem iterate_entry_bound (cell : GConvGRU) (Xs : ℕ → RMat) (eis : ℕ → EdgeIndex)
    (ews : ℕ → EdgeWeight) (H0 : RMat) (i j : ℕ) (k : ℕ) :
    |(cell.iterate Xs eis ews H0 k).entry i j| ≤ Real.tanh 1 ^ k * |H0.entry i j| := by
  induction k with
  | zero => simp [GConvGRU.iterate]
  | succ k ih =>
      have h1 := forward_entry_contraction cell (Xs k) (eis k) (ews k)
        (some (cell.iterate Xs eis ews H0 k)) i j
      have h2 : cell.set_hidden_state (Xs k) (some (cell.iterate Xs eis ews H0 k)) =
          cell.iterate Xs eis ews H0 k := rfl
      rw [h2] at h1
      have h3 : Real.tanh 1 * |(cell.iterate Xs eis ews H0 k).entry i j| ≤
          Real.tanh 1 * (Real.tanh 1 ^ k * |H0.entry i j|) :=
        mul_le_mul_of_nonneg_left ih (tanh_nonneg_of_nonneg zero_le_one)
      calc |(cell.iterate Xs eis ews H0 (k + 1)).entry i j| ≤
          Real.tanh 1 * |(cell.iterate Xs eis ews H0 k).entry i j| := h1
        _ ≤ Real.tanh 1 * (Real.tanh 1 ^ k * |H0.entry i j|) := h3
        _ = Real.tanh 1 ^ (k + 1) * |H0.entry i j| := by ring

/-! ### The claims -/

/-- C1: for every input, the hidden state returned by `forward` is the
elementwise product of the resolved previous hidden state with `tanh` of the
candidate state, `H_new = H ⊙ tanh(H_t)`; the update gate is not consumed by
this final combination, and the conventional GRU convex combination
`Z⊙H + (1-Z)⊙H_t` is not what `forward` computes (they differ on a concrete
input). -/
theorem C1_final_combination_is_literal :
    (∀ (cell : GConvGRU) (X : RMat) (ei : EdgeIndex) (ew : EdgeWeight) (H : Option RMat),
      cell.forward X ei ew H =
        matHadamard (cell.set_hidden_state X H)
          (matMap Real.tanh
            (cell.calculate_candidate_state X ei ew (cell.set_hidden_state X H)
              (cell.calculate_reset_gate X ei ew (cell.set_hidden_state X H))))) ∧
    (∃ (cell : GConvGRU) (X : RMat) (ei : EdgeIndex) (ew : EdgeWeight) (H : Option RMat),
      cell.forward X ei ew H ≠ conventionalGRUCombination cell X ei ew H) := by
  constructor
  · intro cell X ei ew H
    exact forward_unfold cell X ei ew H
  · refine ⟨cell0, onesMat, [], none, some onesMat, fun hcontra => ?_⟩
    have h := congrArg (fun M => M.entry 0 0) hcontra
    norm_num [GConvGRU.forward, conventionalGRUCombination, GConvGRU.set_hidden_state,
      GConvGRU.calculate_update_gate, GConvGRU.calculate_reset_gate,
      GConvGRU.calculate_candidate_state, GConvGRU.calculate_hidden_state,
      cell0, convZero, onesMat, constMat, matHadamard, matAdd, matMap, zeros,
      sigmoid_zero_eq, Real.tanh_zero] at h

/-- C2: whenever the resolved previous hidden state is the all-zero matrix
(in particular whenever `H` is omitted), `forward` returns the all-zero
matrix, whatever the input features, the edge structure, the edge weights and
the convolution operators are. -/
theorem C2_zero_hidden_state_collapses (cell : GConvGRU) (X : RMat) (ei : EdgeIndex)
    (ew : EdgeWeight) (H : Option RMat)
    (h : cell.set_hidden_state X H = zeros cell.number_of_nodes cell.out_channels) :
    cell.forward X ei ew H = zeros cell.number_of_nodes cell.out_channels := by
  rw [forward_unfold, h, matHadamard_zeros_left]

/-- Witness for C2: the concrete cell with `H` omitted satisfies the
hypothesis, and its output is the zero matrix. -/
theorem C2_zero_hidden_state_collapses_witness :
    cell0.set_hidden_state onesMat none = zeros cell0.number_of_nodes cell0.out_channels ∧
    cell0.forward onesMat [] none none = zeros cell0.number_of_nodes cell0.out_channels :=
  ⟨rfl, C2_zero_hidden_state_collapses cell0 onesMat [] none none rfl⟩

/-- C3: the update gate, the reset gate and the candidate state are computed
by exactly the formulas `Z = sigmoid(conv_x_z(X) + conv_h_z(H))`,
`R = sigmoid(conv_x_r(X) + conv_h_r(H))` and
`H_t = tanh(conv_x_h(X) + conv_h_h(H ⊙ R))`, the reset gate multiplying the
previous hidden state elementwise before it is convolved. -/
theorem C3_gate_formulas (cell : GConvGRU) (X : RMat) (ei : EdgeIndex) (ew : EdgeWeight)
    (H R : RMat) :
    cell.calculate_update_gate X ei ew H =
      matMap sigmoid (matAdd (cell.conv_x_z X ei ew) (cell.conv_h_z H ei ew)) ∧
    cell.calculate_reset_gate X ei ew H =
      matMap sigmoid (matAdd (cell.conv_x_r X ei ew) (cell.conv_h_r H ei ew)) ∧
    cell.calculate_candidate_state X ei ew H R =
      matMap Real.tanh
        (matAdd (cell.conv_x_h X ei ew) (cell.conv_h_h (matHadamard H R) ei ew)) :=
  ⟨rfl, rfl, rfl⟩

/-- C4: for every valid input (whenever the supplied hidden state, if any,
has shape `(number_of_nodes, out_channels)`), the matrix returned by
`forward` has shape `(number_of_nodes, out_channels)`, whatever
`in_channels` is. -/
theorem C4_forward_shape (cell : GConvGRU) (X : RMat) (ei : EdgeIndex) (ew : EdgeWeight)
    (H : Option RMat) (hH : hiddenShapeOk cell H) :
    (cell.forward X ei ew H).rows = cell.number_of_nodes ∧
    (cell.forward X ei ew H).cols = cell.out_channels := by
  cases H with
  | none => exact ⟨rfl, rfl⟩
  | some M => exact hH M rfl

/-- Witness for C4: a concrete cell with an explicitly supplied hidden state
of the right shape. -/
theorem C4_forward_shape_witness :
    hiddenShapeOk cell0 (some onesMat) ∧
    (cell0.forward onesMat [] none (some onesMat)).rows = cell0.number_of_nodes ∧
    (cell0.forward onesMat [] none (some onesMat)).cols = cell0.out_channels :=
  ⟨fun M h => by cases h; exact ⟨rfl, rfl⟩,
    C4_forward_shape cell0 onesMat [] none (some onesMat)
      (fun M h => by cases h; exact ⟨rfl, rfl⟩)⟩

/-- C5: calling `forward` with `H` omitted gives the same result as calling
it with `H` explicitly the zero matrix of shape
`(number_of_nodes, out_channels)`; the substituted default is that zero
matrix and does not depend on the values of `X`. -/
theorem C5_default_hidden_state (cell : GConvGRU) (X Y : RMat) (ei : EdgeIndex)
    (ew : EdgeWeight) :
    cell.forward X ei ew none =
      cell.forward X ei ew (some (zeros cell.number_of_nodes cell.out_channels)) ∧
    cell.set_hidden_state X none = zeros cell.number_of_nodes cell.out_channels ∧
    cell.set_hidden_state X none = cell.set_hidden_state Y none :=
  ⟨rfl, rfl, rfl⟩

/-- C6: every entry of the update gate and of the reset gate lies in the
open interval `(0, 1)`, and every entry of the candidate state lies in the
open interval `(-1, 1)`. -/
theorem C6_gate_ranges (cell : GConvGRU) (X : RMat) (ei : EdgeIndex) (ew : EdgeWeight)
    (H R : RMat) (i j : ℕ) :
    (0 < (cell.calculate_update_gate X ei ew H).entry i j ∧
      (cell.calculate_update_gate X ei ew H).entry i j < 1) ∧
    (0 < (cell.calculate_reset_gate X ei ew H).entry i j ∧
      (cell.calculate_reset_gate X ei ew H).entry i j < 1) ∧
    (-1 < (cell.calculate_candidate_state X ei ew H R).entry i j ∧
      (cell.calculate_candidate_state X ei ew H R).entry i j < 1) :=
  ⟨⟨sigmoid_pos _, sigmoid_lt_one _⟩, ⟨sigmoid_pos _, sigmoid_lt_one _⟩,
    ⟨neg_one_lt_tanh _, tanh_lt_one _⟩⟩

/-- C7: when the six operators send the zero matrix to the zero matrix
(zero biases) and both `X` and `H` are all-zero, the update and reset gates
are constant `sigmoid 0 = 1/2`, the candidate state is the zero matrix, and
`forward` returns the zero matrix. -/
theorem C7_zero_input_boundary (cell : GConvGRU) (ei : EdgeIndex) (ew : EdgeWeight) (R : RMat)
    (hxz : cell.conv_x_z (zeros cell.number_of_nodes cell.in_channels) ei ew =
      zeros cell.number_of_nodes cell.out_channels)
    (hhz : cell.conv_h_z (zeros cell.number_of_nodes cell.out_channels) ei ew =
      zeros cell.number_of_nodes cell.out_channels)
    (hxr : cell.conv_x_r (zeros cell.number_of_nodes cell.in_channels) ei ew =
      zeros cell.number_of_nodes cell.out_channels)
    (hhr : cell.conv_h_r (zeros cell.number_of_nodes cell.out_channels) ei ew =
      zeros cell.number_of_nodes cell.out_channels)
    (hxh : cell.conv_x_h (zeros cell.number_of_nodes cell.in_channels) ei ew =
      zeros cell.number_of_nodes cell.out_channels)
    (hhh : cell.conv_h_h (zeros cell.number_of_nodes cell.out_channels) ei ew =
      zeros cell.number_of_nodes cell.out_channels) :
    cell.calculate_update_gate (zeros cell.number_of_nodes cell.in_channels) ei ew
        (zeros cell.number_of_nodes cell.out_channels) =
      constMat cell.number_of_nodes cell.out_channels (sigmoid 0) ∧
    cell.calculate_reset_gate (zeros cell.number_of_nodes cell.in_channels) ei ew
        (zeros cell.number_of_nodes cell.out_channels) =
      constMat cell.number_of_nodes cell.out_channels (sigmoid 0) ∧
    sigmoid 0 = 1 / 2 ∧
    cell.calculate_candidate_state (zeros cell.number_of_nodes cell.in_channels) ei ew
        (zeros cell.number_of_nodes cell.out_channels) R =
      zeros cell.number_of_nodes cell.out_channels ∧
    cell.forward (zeros cell.number_of_nodes cell.in_channels) ei ew
        (some (zeros cell.number_of_nodes cell.out_channels)) =
      zeros cell.number_of_nodes cell.out_channels := by
  refine ⟨?_, ?_, sigmoid_zero_eq, ?_, ?_⟩
  · simp only [GConvGRU.calculate_update_gate]
    rw [hxz, hhz]
    simp [matAdd, matMap, zeros, constMat]
  · simp only [GConvGRU.calculate_reset_gate]
    rw [hxr, hhr]
    simp [matAdd, matMap, zeros, constMat]
  · simp only [GConvGRU.calculate_candidate_state]
    rw [matHadamard_zeros_left, hxh, hhh]
    simp [matAdd, matMap, zeros, Real.tanh_zero]
  · rw [forward_unfold]
    have h : cell.set_hidden_state (zeros cell.number_of_nodes cell.in_channels)
        (some (zeros cell.number_of_nodes cell.out_channels)) =
        zeros cell.number_of_nodes cell.out_channels := rfl
    rw [h, matHadamard_zeros_left]

/-- Witness for C7: the concrete all-zero cell satisfies the six zero-bias
hypotheses, and the stated boundary behaviour follows. -/
theorem C7_zero_input_boundary_witness :
    cell0.conv_x_z (zeros cell0.number_of_nodes cell0.in_channels) [] none =
      zeros cell0.number_of_nodes cell0.out_channels ∧
    cell0.conv_h_h (zeros cell0.number_of_nodes cell0.out_channels) [] none =
      zeros cell0.number_of_nodes cell0.out_channels ∧
    sigmoid 0 = 1 / 2 ∧
    cell0.forward (zeros cell0.number_of_nodes cell0.in_channels) [] none
        (some (zeros cell0.number_of_nodes cell0.out_channels)) =
      zeros cell0.number_of_nodes cell0.out_channels :=
  ⟨rfl, rfl,
    (C7_zero_input_boundary cell0 [] none onesMat rfl rfl rfl rfl rfl rfl).2.2.1,
    (C7_zero_input_boundary cell0 [] none onesMat rfl rfl rfl rfl rfl rfl).2.2.2.2⟩

/-- C8: `forward` is a pure deterministic function of the cell's parameters
and its explicit inputs — any two calls with equal cell, features, edge
index, edge weights and hidden state return equal results. -/
theorem C8_forward_deterministic (cell cell' : GConvGRU) (X X' : RMat) (ei ei' : EdgeIndex)
    (ew ew' : EdgeWeight) (H H' : Option RMat)
    (hc : cell = cell') (hX : X = X') (hei : ei = ei') (hew : ew = ew') (hH : H = H') :
    cell.forward X ei ew H = cell'.forward X' ei' ew' H' := by
  subst hc hX hei hew hH
  rfl

/-- Witness for C8: two repeated calls at a concrete input agree. -/
theorem C8_forward_deterministic_witness :
    cell0 = cell0 ∧
    cell0.forward onesMat [] none none = cell0.forward onesMat [] none none :=
  ⟨rfl, C8_forward_deterministic cell0 cell0 onesMat onesMat [] [] none none none none
    rfl rfl rfl rfl rfl⟩

/-- C9: the update gate and the reset gate are each a function of
`(X, edge_index, edge_weight, H)` alone, so computing the reset gate before
the update gate changes nothing: the swapped-order forward pass returns the
same matrix as `forward`. -/
theorem C9_gate_order_irrelevant (cell : GConvGRU) (X : RMat) (ei : EdgeIndex)
    (ew : EdgeWeight) (H : Option RMat) :
    cell.forward_reset_first X ei ew H = cell.forward X ei ew H :=
  rfl

/-- C10: each entry of the returned hidden state is bounded by `tanh 1`
times the corresponding entry of the resolved previous hidden state;
`tanh 1 < 1`; iterating the cell therefore contracts every entry
geometrically, and its absolute value tends to zero whatever the inputs
fed at each step. -/
theorem C10_hidden_state_contraction :
    (∀ (cell : GConvGRU) (X : RMat) (ei : EdgeIndex) (ew : EdgeWeight) (H : Option RMat)
      (i j : ℕ),
      |(cell.forward X ei ew H).entry i j| ≤
        Real.tanh 1 * |(cell.set_hidden_state X H).entry i j|) ∧
    Real.tanh 1 < 1 ∧
    (∀ (cell : GConvGRU) (Xs : ℕ → RMat) (eis : ℕ → EdgeIndex) (ews : ℕ → EdgeWeight)
      (H0 : RMat) (k i j : ℕ),
      |(cell.iterate Xs eis ews H0 k).entry i j| ≤ Real.tanh 1 ^ k * |H0.entry i j|) ∧
    (∀ (cell : GConvGRU) (Xs : ℕ → RMat) (eis : ℕ → EdgeIndex) (ews : ℕ → EdgeWeight)
      (H0 : RMat) (i j : ℕ),
      Tendsto (fun k => |(cell.iterate Xs eis ews H0 k).entry i j|) atTop (nhds 0)) := by
  refine ⟨forward_entry_contraction, tanh_lt_one 1,
    fun cell Xs eis ews H0 k i j => iterate_entry_bound cell Xs eis ews H0 i j k,
    fun cell Xs eis ews H0 i j => ?_⟩
  have hgeom : Tendsto (fun k : ℕ => Real.tanh 1 ^ k * |H0.entry i j|) atTop (nhds 0) := by
    have h1 : Tendsto (fun k : ℕ => Real.tanh 1 ^ k) atTop (nhds 0) :=
      tendsto_pow_atTop_nhds_zero_of_lt_one (tanh_nonneg_of_nonneg zero_le_one) (tanh_lt_one 1)
    simpa using h1.mul_const |H0.entry i j|
  exact squeeze_zero (fun k => abs_nonneg _)
    (fun k => iterate_entry_bound cell Xs eis ews H0 i j k) hgeom
